import Mathlib

/-!
Shallow embedding of the zerohub template service (src/src/main.rs).
Strings are modelled as lists of characters; the bytes of decompressed zip
entries are likewise modelled as lists of characters.
-/

/-- Fuel-indexed scanner behind replaceAll: at each position, if the
non-empty pattern is a prefix of the remaining text, emit the replacement
and skip past the pattern, otherwise keep the character. -/
def replaceFuel (pat rep : List Char) : Nat → List Char → List Char
  | _, [] => []
  | 0, s => s
  | fuel + 1, c :: cs =>
    if pat ≠ [] ∧ pat.isPrefixOf (c :: cs) then
      rep ++ replaceFuel pat rep fuel ((c :: cs).drop pat.length)
    else
      c :: replaceFuel pat rep fuel cs

/-- Model of Rust String.replace with a fixed pattern: replace every
leftmost non-overlapping occurrence of pat in s by rep. -/
def replaceAll (pat rep : List Char) (s : List Char) : List Char :=
  replaceFuel pat rep s.length s

/-- Decides whether pat occurs as a contiguous substring of s. -/
def containsSub (pat : List Char) (s : List Char) : Bool :=
  match s with
  | [] => pat.isEmpty
  | _ :: cs => pat.isPrefixOf s || containsSub pat cs

/-- No occurrence of pat can begin at any position strictly inside l: at every
start index the pattern disagrees with l at some index that is still inside l.
This condition is independent of whatever text follows l. -/
def cantStartIn (pat l : List Char) : Prop :=
  ∀ i ∈ List.range l.length, ∃ j ∈ List.range pat.length,
    i + j < l.length ∧ l.getD (i + j) 'a' ≠ pat.getD j 'a'

instance (pat l : List Char) : Decidable (cantStartIn pat l) := by
  unfold cantStartIn; infer_instance

/-- The per-request render context of main.rs (struct TemplateData): the four
user fields plus the generated id and timestamp. Only the four user fields
are consulted by fill_template_content. -/
structure TemplateData where
  username : List Char
  email : List Char
  project_name : List Char
  project_description : List Char
  generated_id : List Char
  timestamp : List Char
deriving DecidableEq

/-- The username placeholder token. -/
def tokUsername : List Char := ("\x7b\x7busername\x7d\x7d").toList

/-- The email placeholder token. -/
def tokEmail : List Char := ("\x7b\x7bemail\x7d\x7d").toList

/-- The project-name placeholder token. -/
def tokProjectName : List Char := ("\x7b\x7bproject_name\x7d\x7d").toList

/-- The project-description placeholder token. -/
def tokProjectDescription : List Char := ("\x7b\x7bproject_description\x7d\x7d").toList

/-- Model of fn fill_template_content: four sequential String.replace calls,
username first, then email, then project_name, then project_description. -/
def fill_template_content (content : List Char) (data : TemplateData) : List Char :=
  replaceAll tokProjectDescription data.project_description
    (replaceAll tokProjectName data.project_name
      (replaceAll tokEmail data.email
        (replaceAll tokUsername data.username content)))

/-- The four placeholder kinds, in the order fill_template_content applies them. -/
inductive Tok where
  | username
  | email
  | projectName
  | projectDescription
deriving DecidableEq, Fintype

/-- Token string of each placeholder kind. -/
def tokStr : Tok → List Char
  | .username => tokUsername
  | .email => tokEmail
  | .projectName => tokProjectName
  | .projectDescription => tokProjectDescription

/-- Context field substituted for each placeholder kind. -/
def tokVal : Tok → TemplateData → List Char
  | .username, d => d.username
  | .email, d => d.email
  | .projectName, d => d.project_name
  | .projectDescription, d => d.project_description

/-- Applying the replacements for the kinds listed in order, left to right,
to content. fill_template_content is the instance at the fixed order
username, email, projectName, projectDescription. -/
def fillSeq (order : List Tok) (content : List Char) (d : TemplateData) : List Char :=
  order.foldl (fun acc k => replaceAll (tokStr k) (tokVal k d) acc) content

/-- A canonical template text is assembled from pieces: literal segments and
complete placeholder tokens. -/
inductive Piece where
  | lit (s : List Char)
  | tk (t : Tok)

/-- The text a piece contributes to the template. -/
def pieceStr : Piece → List Char
  | .lit s => s
  | .tk t => tokStr t

/-- The text a piece contributes to the rendered output. -/
def pieceOut (d : TemplateData) : Piece → List Char
  | .lit s => s
  | .tk t => tokVal t d

/-- The template text assembled from a list of pieces. -/
def assemble (ps : List Piece) : List Char :=
  ps.foldr (fun p acc => pieceStr p ++ acc) []

/-- The expected rendered output of a list of pieces: every token is replaced
by the corresponding context field, literals are kept. -/
def rendered (ps : List Piece) (d : TemplateData) : List Char :=
  ps.foldr (fun p acc => pieceOut d p ++ acc) []

/-- A text with no brace characters. -/
def braceFree (s : List Char) : Prop :=
  ∀ c ∈ s, c ≠ '\x7b' ∧ c ≠ '\x7d'

instance (s : List Char) : Decidable (braceFree s) := by
  unfold braceFree; infer_instance

/-- A piece whose literal text, if any, is brace-free. -/
def pieceBraceFree : Piece → Prop
  | .lit s => braceFree s
  | .tk _ => True

instance : DecidablePred pieceBraceFree := fun p =>
  match p with
  | .lit s => (inferInstance : Decidable (braceFree s))
  | .tk _ => .isTrue trivial

/-- Every literal piece is brace-free. -/
def litsBraceFree (ps : List Piece) : Prop :=
  ∀ p ∈ ps, pieceBraceFree p

instance (ps : List Piece) : Decidable (litsBraceFree ps) := by
  unfold litsBraceFree; infer_instance

/-- All four context fields are brace-free. -/
def valsBraceFree (d : TemplateData) : Prop :=
  braceFree d.username ∧ braceFree d.email ∧
    braceFree d.project_name ∧ braceFree d.project_description

instance (d : TemplateData) : Decidable (valsBraceFree d) := by
  unfold valsBraceFree; infer_instance

/-- Effect of one replaceAll pass on a piece: the matching token becomes a
literal holding the replacement, everything else is untouched. -/
def substPiece (k : Tok) (v : List Char) : Piece → Piece
  | .lit s => .lit s
  | .tk t => if t = k then .lit v else .tk t

/-- Effect of a sequence of replaceAll passes on a single piece. -/
def substSeq (order : List Tok) (d : TemplateData) (p : Piece) : Piece :=
  order.foldl (fun q k => substPiece k (tokVal k d) q) p

/-- Model of the filename derivation shared by both endpoints:
project_name.replace(" ", "_").to_lowercase(). Lower-casing is modelled
character-wise with the ASCII Char.toLower, which agrees with Rust's
Unicode-aware to_lowercase exactly on ASCII input; the model is therefore
faithful only for ASCII project names, and the filename theorem below is
stated under that hypothesis. -/
def derive_filename_base (pn : List Char) : List Char :=
  (replaceAll ([' ']) (['_']) pn).map Char.toLower

/-- Download filename of the server endpoint: base followed by ".zip". -/
def server_filename (pn : List Char) : List Char :=
  derive_filename_base pn ++ (".zip").toList

/-- Download filename of the client endpoint: base followed by "-client.zip". -/
def client_filename (pn : List Char) : List Char :=
  derive_filename_base pn ++ ("-client.zip").toList

/-- One entry of a zip archive, at the decompressed level: the entry name and
the decompressed content bytes. The zip container and the deflate codec are
abstracted away: the source decompresses each baseline entry fully into a
buffer and rewrites that buffer unchanged, so archives are modelled as the
ordered list of their (name, decompressed content) entries. -/
structure ZipEntry where
  name : List Char
  content : List Char
deriving DecidableEq

/-- The files create_server_zip reads from disk: the parsed baseline archive
templates/server/zero.zip and the three template texts. A field is none when
the file is missing from disk (or, for the archive, cannot be parsed). -/
structure ServerFiles where
  zero_zip : Option (List ZipEntry)
  license : Option (List Char)
  pyproject : Option (List Char)
  readme : Option (List Char)

/-- The files create_client_zip reads: templates/client/zero-client.zip and
the three client template texts. -/
structure ClientFiles where
  zero_client_zip : Option (List ZipEntry)
  license : Option (List Char)
  package_json : Option (List Char)
  readme : Option (List Char)

/-- Model of fn create_server_zip: fail if the baseline archive or any of the
three template files is missing; otherwise copy every baseline entry in its
original order and append the three rendered template files, in the order
LICENSE, pyproject.toml, README.md, with no deduplication by name. -/
def create_server_zip (fs : ServerFiles) (data : TemplateData) :
    Except (List Char) (List ZipEntry) :=
  match fs.zero_zip with
  | none => .error (("File not found: templates/server/zero.zip").toList)
  | some baseline =>
    match fs.license with
    | none => .error (("File not found: templates/server/LICENSE").toList)
    | some lic =>
      match fs.pyproject with
      | none => .error (("File not found: templates/server/pyproject.toml").toList)
      | some py =>
        match fs.readme with
        | none => .error (("File not found: templates/server/README.md").toList)
        | some rd =>
          .ok (baseline ++
            [⟨("LICENSE").toList, fill_template_content lic data⟩,
             ⟨("pyproject.toml").toList, fill_template_content py data⟩,
             ⟨("README.md").toList, fill_template_content rd data⟩])

/-- Model of fn create_client_zip: as create_server_zip, with the client
baseline archive and the rendered files LICENSE, package.json, README.md. -/
def create_client_zip (fs : ClientFiles) (data : TemplateData) :
    Except (List Char) (List ZipEntry) :=
  match fs.zero_client_zip with
  | none => .error (("File not found: templates/client/zero-client.zip").toList)
  | some baseline =>
    match fs.license with
    | none => .error (("File not found: templates/client/LICENSE").toList)
    | some lic =>
      match fs.package_json with
      | none => .error (("File not found: templates/client/package.json").toList)
      | some pkg =>
        match fs.readme with
        | none => .error (("File not found: templates/client/README.md").toList)
        | some rd =>
          .ok (baseline ++
            [⟨("LICENSE").toList, fill_template_content lic data⟩,
             ⟨("package.json").toList, fill_template_content pkg data⟩,
             ⟨("README.md").toList, fill_template_content rd data⟩])

/-- The JSON request body of both endpoints (struct UserInfo): four string
fields, accepted as-is with no further validation. -/
structure UserInfo where
  username : List Char
  email : List Char
  project_name : List Char
  project_description : List Char
deriving DecidableEq

/-- Model of impl From UserInfo for TemplateData: copy the four user fields
and add the freshly generated id and timestamp, which are passed here as
parameters since they are produced by the environment per request. -/
def templateDataOf (u : UserInfo) (gid ts : List Char) : TemplateData :=
  ⟨u.username, u.email, u.project_name, u.project_description, gid, ts⟩

/-- Body of an endpoint response: either the archive bytes (success) or the
JSON object whose single key is "error", carrying the error message. -/
inductive ResponseBody where
  | archive (entries : List ZipEntry)
  | errorJson (message : List Char)
deriving DecidableEq

/-- An HTTP response of the two generate endpoints: status code, the derived
download filename (before percent-encoding) when present, and the body. -/
structure HttpResponse where
  status : Nat
  filename : Option (List Char)
  body : ResponseBody
deriving DecidableEq

/-- Model of async fn generate_server_zip: build the render context, run
create_server_zip; on success answer 200 with the archive and the filename
derived from project_name, on failure answer 500 with a JSON error body. -/
def generate_server_zip (fs : ServerFiles) (u : UserInfo) (gid ts : List Char) : HttpResponse :=
  let data := templateDataOf u gid ts
  match create_server_zip fs data with
  | .ok entries => ⟨200, some (server_filename data.project_name), .archive entries⟩
  | .error e =>
    ⟨500, none, .errorJson (("Failed to create server zip file: ").toList ++ e)⟩

/-- Model of async fn generate_client_zip. -/
def generate_client_zip (fs : ClientFiles) (u : UserInfo) (gid ts : List Char) : HttpResponse :=
  let data := templateDataOf u gid ts
  match create_client_zip fs data with
  | .ok entries => ⟨200, some (client_filename data.project_name), .archive entries⟩
  | .error e =>
    ⟨500, none, .errorJson (("Failed to create client zip file: ").toList ++ e)⟩

/-- The names of the rendered server files, in write order. -/
def serverRenderedNames : List (List Char) :=
  [("LICENSE").toList, ("pyproject.toml").toList, ("README.md").toList]

/-- The names of the rendered client files, in write order. -/
def clientRenderedNames : List (List Char) :=
  [("LICENSE").toList, ("package.json").toList, ("README.md").toList]

/-- A render context with brace-free field values, used in witnesses. -/
def wD : TemplateData :=
  ⟨("alice").toList, ("a@x.com").toList, ("demo").toList, ("a demo app").toList,
   ("id-1").toList, ("2026-10-12 00:00:00 UTC").toList⟩

/-- A canonical template: brace-free literals separated by complete tokens. -/
def wPieces : List Piece :=
  [.lit (("Hello ").toList), .tk .username,
   .lit ((", project ").toList), .tk .projectName, .lit (("!").toList)]

/-- A text holding a malformed partial token (missing closing braces). -/
def wMalformed : List Char := ("\x7b\x7busername missing brace").toList

/-- A template whose one token is rendered away entirely by one pass. -/
def wIdem : List Char := ("Hello ").toList ++ tokUsername ++ (".").toList

/-- Context whose username field holds the literal email token text. -/
def cD2 : TemplateData :=
  ⟨tokEmail, ("E").toList, ("P").toList, ("D").toList, [], []⟩

/-- Context whose username field holds the literal project_name token text. -/
def cD3 : TemplateData :=
  ⟨tokProjectName, ("E").toList, ("X").toList, ("D").toList, [], []⟩

/-- Context whose email field holds the literal username token text. -/
def cD6 : TemplateData :=
  ⟨("alice").toList, tokUsername, ("P").toList, ("D").toList, [], []⟩

/-- Context with brace-free values and an empty project_description. -/
def cD7 : TemplateData :=
  ⟨("A").toList, ("B").toList, ("C").toList, [], [], []⟩

/-- A text in which removing the project_description token splices the two
surrounding fragments into a fresh username token. -/
def cS7 : List Char :=
  ("\x7b\x7buser").toList ++ tokProjectDescription ++ ("name\x7d\x7d").toList

/-- Context whose project_description field holds the literal username token
text: the value substituted by the final pass itself contains token text. -/
def cDpd : TemplateData :=
  ⟨("A").toList, ("B").toList, ("C").toList, tokUsername, [], []⟩

/-- A concrete baseline archive, with an entry named README.md so that the
duplicate-name behaviour is exercised. -/
def wBaseline : List ZipEntry :=
  [⟨("src/app.py").toList, ("print(0)").toList⟩,
   ⟨("README.md").toList, ("old readme").toList⟩]

/-- Server-side files all present, with empty template texts. -/
def wServerFiles : ServerFiles := ⟨some wBaseline, some [], some [], some []⟩

/-- Client-side files all present, with empty template texts. -/
def wClientFiles : ClientFiles := ⟨some wBaseline, some [], some [], some []⟩

/-- The archive create_server_zip produces from wServerFiles and wD. -/
def wServerOut : List ZipEntry :=
  wBaseline ++
    [⟨("LICENSE").toList, []⟩, ⟨("pyproject.toml").toList, []⟩,
     ⟨("README.md").toList, []⟩]

/-- The archive create_client_zip produces from wClientFiles and wD. -/
def wClientOut : List ZipEntry :=
  wBaseline ++
    [⟨("LICENSE").toList, []⟩, ⟨("package.json").toList, []⟩,
     ⟨("README.md").toList, []⟩]

/-- Server-side files with everything missing. -/
def wServerFilesMissing : ServerFiles := ⟨none, none, none, none⟩

/-- Client-side files with everything missing. -/
def wClientFilesMissing : ClientFiles := ⟨none, none, none, none⟩

/-- A request body. -/
def wUser : UserInfo :=
  ⟨("alice").toList, ("a@x.com").toList, ("My App").toList, ("demo").toList⟩

/-- A request body with an empty project_name. -/
def wUserEmpty : UserInfo :=
  ⟨("alice").toList, ("a@x.com").toList, [], ("demo").toList⟩

theorem replaceFuel_congr (pat rep : List Char) :
    ∀ (fuel fuel' : Nat) (s : List Char), s.length ≤ fuel → s.length ≤ fuel' →
      replaceFuel pat rep fuel s = replaceFuel pat rep fuel' s := by
  intro fuel
  induction fuel with
  | zero =>
    intro fuel' s hs _
    have : s = [] := List.length_eq_zero.mp (Nat.le_zero.mp hs)
    subst this
    cases fuel' <;> rfl
  | succ f ih =>
    intro fuel' s hs hs'
    match s with
    | [] => cases fuel' <;> rfl
    | c :: cs =>
      match fuel' with
      | 0 => simp at hs'
      | f' + 1 =>
        simp only [replaceFuel]
        by_cases h : pat ≠ [] ∧ pat.isPrefixOf (c :: cs)
        · simp only [if_pos h]
          have hpat : 1 ≤ pat.length := List.length_pos.mpr h.1
          have hd : ((c :: cs).drop pat.length).length ≤ f := by
            simp only [List.length_drop, List.length_cons]
            simp only [List.length_cons] at hs
            omega
          have hd' : ((c :: cs).drop pat.length).length ≤ f' := by
            simp only [List.length_drop, List.length_cons]
            simp only [List.length_cons] at hs'
            omega
          rw [ih f' _ hd hd']
        · simp only [if_neg h]
          have hc : cs.length ≤ f := by simp only [List.length_cons] at hs; omega
          have hc' : cs.length ≤ f' := by simp only [List.length_cons] at hs'; omega
          rw [ih f' _ hc hc']

theorem replaceAll_nil (pat rep : List Char) : replaceAll pat rep [] = [] := rfl

theorem replaceAll_cons (pat rep : List Char) (c : Char) (cs : List Char) :
    replaceAll pat rep (c :: cs) =
      if pat ≠ [] ∧ pat.isPrefixOf (c :: cs) then
        rep ++ replaceAll pat rep ((c :: cs).drop pat.length)
      else
        c :: replaceAll pat rep cs := by
  show replaceFuel pat rep (cs.length + 1) (c :: cs) = _
  simp only [replaceFuel]
  by_cases h : pat ≠ [] ∧ pat.isPrefixOf (c :: cs)
  · simp only [if_pos h]
    have hpat : 1 ≤ pat.length := List.length_pos.mpr h.1
    have hle : ((c :: cs).drop pat.length).length ≤ cs.length := by
      simp only [List.length_drop, List.length_cons]; omega
    rw [replaceFuel_congr pat rep cs.length ((c :: cs).drop pat.length).length _ hle le_rfl]
    rfl
  · simp only [if_neg h]
    rfl

example : replaceAll ("ab").toList ("X").toList ("abcab").toList = ("XcX").toList := by decide

example : containsSub ("bc").toList ("abcd").toList = true := by decide

example : containsSub ("bd").toList ("abcd").toList = false := by decide

theorem isPrefixOf_eq_true (pat : List Char) :
    ∀ s : List Char, pat.isPrefixOf s = true ↔ ∃ t, s = pat ++ t := by
  induction pat with
  | nil => intro s; simp [List.isPrefixOf]
  | cons a as ih =>
    intro s
    match s with
    | [] => simp [List.isPrefixOf]
    | b :: bs =>
      simp only [List.isPrefixOf, Bool.and_eq_true, beq_iff_eq, ih bs, List.cons_append]
      constructor
      · rintro ⟨rfl, t, rfl⟩; exact ⟨t, rfl⟩
      · rintro ⟨t, h⟩
        injection h with h1 h2
        exact ⟨h1.symm, t, h2⟩

theorem getD_append_left (l : List Char) :
    ∀ (l' : List Char) (n : Nat) (d : Char), n < l.length → (l ++ l').getD n d = l.getD n d := by
  induction l with
  | nil => intro l' n d h; simp at h
  | cons c cs ih =>
    intro l' n d h
    match n with
    | 0 => rfl
    | m + 1 =>
      simp only [List.length_cons] at h
      simp only [List.cons_append, List.getD_cons_succ]
      exact ih l' m d (by omega)

theorem getD_mem (l : List Char) :
    ∀ (n : Nat) (d : Char), n < l.length → l.getD n d ∈ l := by
  induction l with
  | nil => intro n d h; simp at h
  | cons c cs ih =>
    intro n d h
    match n with
    | 0 => simp [List.getD_cons_zero]
    | m + 1 =>
      simp only [List.length_cons] at h
      simp only [List.getD_cons_succ]
      exact List.mem_cons_of_mem c (ih m d (by omega))

theorem replaceAll_not_contains (pat rep : List Char) :
    ∀ s : List Char, containsSub pat s = false → replaceAll pat rep s = s := by
  intro s
  induction s with
  | nil => intro _; rfl
  | cons c cs ih =>
    intro h
    simp only [containsSub, Bool.or_eq_false_iff] at h
    rw [replaceAll_cons]
    rw [if_neg (by simp [h.1])]
    rw [ih h.2]

theorem replaceAll_append_of_cantStartIn (pat rep : List Char) :
    ∀ (l x : List Char), cantStartIn pat l →
      replaceAll pat rep (l ++ x) = l ++ replaceAll pat rep x := by
  intro l
  induction l with
  | nil => intro x _; rfl
  | cons c l' ih =>
    intro x h
    have hlen : 0 < (c :: l').length := by simp
    obtain ⟨j, hjr, hjlt, hjne⟩ := h 0 (List.mem_range.mpr hlen)
    simp only [Nat.zero_add] at hjlt hjne
    have hnotpre : ¬ (pat ≠ [] ∧ pat.isPrefixOf (c :: (l' ++ x))) := by
      rintro ⟨_, hpre⟩
      obtain ⟨t, ht⟩ := (isPrefixOf_eq_true pat _).mp hpre
      have hj : j < pat.length := List.mem_range.mp hjr
      have h1 : ((c :: l') ++ x).getD j 'a' = (c :: l').getD j 'a' :=
        getD_append_left _ _ _ _ hjlt
      have h2 : (c :: (l' ++ x)).getD j 'a' = pat.getD j 'a' := by
        rw [ht]; exact getD_append_left _ _ _ _ hj
      simp only [List.cons_append] at h1
      exact hjne (h1.symm.trans h2)
    rw [List.cons_append, replaceAll_cons, if_neg hnotpre]
    have h' : cantStartIn pat l' := by
      intro i hir
      have hi : i < l'.length := List.mem_range.mp hir
      obtain ⟨k, hkr, hklt, hkne⟩ :=
        h (i + 1) (List.mem_range.mpr (by simp only [List.length_cons]; omega))
      refine ⟨k, hkr, ?_, ?_⟩
      · simp only [List.length_cons] at hklt; omega
      · have : (c :: l').getD (i + 1 + k) 'a' = l'.getD (i + k) 'a' := by
          have hik : i + 1 + k = (i + k) + 1 := by omega
          rw [hik, List.getD_cons_succ]
        rw [this] at hkne
        exact hkne
    rw [ih x h', List.cons_append]

theorem replaceAll_at_match (pat rep : List Char) (r : List Char) (hne : pat ≠ []) :
    replaceAll pat rep (pat ++ r) = rep ++ replaceAll pat rep r := by
  match pat, hne with
  | p :: pt, _ =>
    rw [List.cons_append, replaceAll_cons]
    rw [if_pos ⟨by simp, (isPrefixOf_eq_true _ _).mpr ⟨r, by simp⟩⟩]
    congr 1
    rw [← List.cons_append, List.drop_left]

theorem replaceAll_self (pat rep : List Char) (hne : pat ≠ []) :
    replaceAll pat rep pat = rep := by
  have h := replaceAll_at_match pat rep [] hne
  rw [List.append_nil, replaceAll_nil, List.append_nil] at h
  exact h

theorem tokStr_ne_nil (t : Tok) : tokStr t ≠ [] := by
  cases t <;> decide

theorem tokStr_head (t : Tok) : (tokStr t).getD 0 'a' = '\x7b' := by
  cases t <;> decide

theorem cantStartIn_tokStr (t k : Tok) (h : t ≠ k) : cantStartIn (tokStr k) (tokStr t) := by
  cases t <;> cases k <;> first
    | exact absurd rfl h
    | decide

theorem cantStartIn_of_braceFree (pat l : List Char) (hne : pat ≠ [])
    (hp : pat.getD 0 'a' = '\x7b') (hl : braceFree l) : cantStartIn pat l := by
  intro i hir
  refine ⟨0, List.mem_range.mpr (List.length_pos.mpr hne), ?_, ?_⟩
  · simpa using List.mem_range.mp hir
  · rw [hp, Nat.add_zero]
    exact (hl _ (getD_mem l i 'a' (List.mem_range.mp hir))).1

theorem replaceAll_assemble (k : Tok) (v : List Char) :
    ∀ ps : List Piece, litsBraceFree ps →
      replaceAll (tokStr k) v (assemble ps) = assemble (ps.map (substPiece k v)) := by
  intro ps
  induction ps with
  | nil => intro _; rfl
  | cons p rest ih =>
    intro h
    have hrest : litsBraceFree rest := fun q hq => h q (List.mem_cons_of_mem p hq)
    match p with
    | .lit s =>
      have hs : braceFree s := h (.lit s) (List.mem_cons_self _ _)
      have hcant : cantStartIn (tokStr k) s :=
        cantStartIn_of_braceFree _ _ (tokStr_ne_nil k) (tokStr_head k) hs
      show replaceAll (tokStr k) v (s ++ assemble rest) = s ++ assemble (rest.map _)
      rw [replaceAll_append_of_cantStartIn _ _ _ _ hcant, ih hrest]
    | .tk t =>
      by_cases htk : t = k
      · subst htk
        show replaceAll (tokStr t) v (tokStr t ++ assemble rest) = _
        rw [replaceAll_at_match _ _ _ (tokStr_ne_nil t), ih hrest]
        simp [assemble, substPiece, pieceStr]
      · show replaceAll (tokStr k) v (tokStr t ++ assemble rest) = _
        rw [replaceAll_append_of_cantStartIn _ _ _ _ (cantStartIn_tokStr t k htk), ih hrest]
        simp [assemble, substPiece, pieceStr, htk]

theorem braceFree_tokVal (k : Tok) (d : TemplateData) (hv : valsBraceFree d) :
    braceFree (tokVal k d) := by
  cases k
  · exact hv.1
  · exact hv.2.1
  · exact hv.2.2.1
  · exact hv.2.2.2

theorem litsBraceFree_map (k : Tok) (v : List Char) (hv : braceFree v) :
    ∀ ps : List Piece, litsBraceFree ps → litsBraceFree (ps.map (substPiece k v)) := by
  intro ps h q hq
  obtain ⟨p, hp, hpq⟩ := List.mem_map.mp hq
  rw [← hpq]
  match p with
  | .lit u => exact h (.lit u) hp
  | .tk t =>
    by_cases htk : t = k
    · subst htk
      simp only [substPiece, if_pos rfl]
      exact hv
    · simp only [substPiece, if_neg htk]
      exact trivial

theorem map_congr_mem {α β : Type} (f g : α → β) :
    ∀ l : List α, (∀ a ∈ l, f a = g a) → l.map f = l.map g := by
  intro l
  induction l with
  | nil => intro _; rfl
  | cons a l ih =>
    intro h
    simp only [List.map_cons]
    rw [h a (List.mem_cons_self _ _), ih (fun b hb => h b (List.mem_cons_of_mem a hb))]

theorem fillSeq_assemble :
    ∀ (order : List Tok) (ps : List Piece) (d : TemplateData),
      litsBraceFree ps → valsBraceFree d →
      fillSeq order (assemble ps) d = assemble (ps.map (substSeq order d)) := by
  intro order
  induction order with
  | nil =>
    intro ps d _ _
    show assemble ps = assemble (ps.map fun p => p)
    rw [List.map_id']
  | cons k rest ih =>
    intro ps d hl hv
    show fillSeq rest (replaceAll (tokStr k) (tokVal k d) (assemble ps)) d = _
    rw [replaceAll_assemble k _ ps hl]
    rw [ih (ps.map (substPiece k (tokVal k d))) d
      (litsBraceFree_map k _ (braceFree_tokVal k d hv) ps hl) hv]
    rw [List.map_map]
    rfl

theorem substSeq_lit (order : List Tok) (d : TemplateData) (s : List Char) :
    substSeq order d (.lit s) = .lit s := by
  induction order with
  | nil => rfl
  | cons k rest ih =>
    show substSeq rest d (substPiece k (tokVal k d) (.lit s)) = _
    exact ih

theorem substSeq_tk_mem (order : List Tok) (d : TemplateData) (t : Tok) :
    t ∈ order → substSeq order d (.tk t) = .lit (tokVal t d) := by
  induction order with
  | nil => intro h; simp at h
  | cons k rest ih =>
    intro h
    by_cases htk : t = k
    · subst htk
      show substSeq rest d (substPiece t (tokVal t d) (.tk t)) = _
      simp only [substPiece, if_pos rfl]
      exact substSeq_lit rest d _
    · show substSeq rest d (substPiece k (tokVal k d) (.tk t)) = _
      simp only [substPiece, if_neg htk]
      exact ih (by rcases List.mem_cons.mp h with h1 | h2; exact absurd h1 htk; exact h2)

theorem assemble_map_out (ps : List Piece) (d : TemplateData) :
    assemble (ps.map fun p => Piece.lit (pieceOut d p)) = rendered ps d := by
  induction ps with
  | nil => rfl
  | cons p rest ih =>
    rw [List.map_cons]
    have hstep : assemble (Piece.lit (pieceOut d p) :: rest.map fun q => Piece.lit (pieceOut d q)) =
        pieceStr (Piece.lit (pieceOut d p)) ++ assemble (rest.map fun q => Piece.lit (pieceOut d q)) := rfl
    rw [hstep, ih]
    rfl

/-- Helper: on canonical inputs with brace-free literals and brace-free
context fields, applying the four replacements in any order that covers all
four tokens yields the fully rendered output. -/
theorem fillSeq_perm_rendered (order : List Tok)
    (hperm : order.Perm [Tok.username, Tok.email, Tok.projectName, Tok.projectDescription])
    (ps : List Piece) (d : TemplateData) (hl : litsBraceFree ps) (hv : valsBraceFree d) :
    fillSeq order (assemble ps) d = rendered ps d := by
  rw [fillSeq_assemble order ps d hl hv]
  have hmem : ∀ t : Tok, t ∈ order := by
    intro t
    rw [hperm.mem_iff]
    cases t <;> simp
  have hmap : ps.map (substSeq order d) = ps.map fun p => Piece.lit (pieceOut d p) := by
    apply map_congr_mem
    intro p _
    match p with
    | .lit s => rw [substSeq_lit]; rfl
    | .tk t => rw [substSeq_tk_mem order d t (hmem t)]; rfl
  rw [hmap, assemble_map_out]

theorem fill_eq_fillSeq (content : List Char) (d : TemplateData) :
    fill_template_content content d =
      fillSeq [Tok.username, Tok.email, Tok.projectName, Tok.projectDescription] content d := rfl

/-- Helper: fill_template_content fully renders canonical inputs. -/
theorem fill_assemble_rendered (ps : List Piece) (d : TemplateData)
    (hl : litsBraceFree ps) (hv : valsBraceFree d) :
    fill_template_content (assemble ps) d = rendered ps d := by
  rw [fill_eq_fillSeq]
  exact fillSeq_perm_rendered _ (List.Perm.refl _) ps d hl hv

/-- Helper: a text containing none of the four tokens is left unchanged. -/
theorem fill_id_of_no_token (s : List Char) (d : TemplateData)
    (h : ∀ t : Tok, containsSub (tokStr t) s = false) :
    fill_template_content s d = s := by
  show replaceAll tokProjectDescription d.project_description
      (replaceAll tokProjectName d.project_name
        (replaceAll tokEmail d.email
          (replaceAll tokUsername d.username s))) = s
  have h1 : containsSub tokUsername s = false := h Tok.username
  have h2 : containsSub tokEmail s = false := h Tok.email
  have h3 : containsSub tokProjectName s = false := h Tok.projectName
  have h4 : containsSub tokProjectDescription s = false := h Tok.projectDescription
  rw [replaceAll_not_contains tokUsername d.username s h1,
    replaceAll_not_contains tokEmail d.email s h2,
    replaceAll_not_contains tokProjectName d.project_name s h3,
    replaceAll_not_contains tokProjectDescription d.project_description s h4]

theorem containsSub_false_of_braceFree (pat : List Char) (hne : pat ≠ [])
    (hp : pat.getD 0 'a' = '\x7b') :
    ∀ s : List Char, braceFree s → containsSub pat s = false := by
  intro s
  induction s with
  | nil =>
    intro _
    match pat, hne with
    | p :: pt, _ => rfl
  | cons c cs ih =>
    intro hs
    simp only [containsSub, Bool.or_eq_false_iff]
    refine ⟨?_, ih (fun x hx => hs x (List.mem_cons_of_mem c hx))⟩
    cases hb : pat.isPrefixOf (c :: cs) with
    | false => rfl
    | true =>
      exfalso
      obtain ⟨t, ht⟩ := (isPrefixOf_eq_true pat _).mp hb
      have hc : c = '\x7b' := by
        have hgd := congrArg (fun l => l.getD 0 'a') ht
        simp only [List.getD_cons_zero] at hgd
        rw [getD_append_left pat t 0 'a' (List.length_pos.mpr hne), hp] at hgd
        exact hgd
      exact (hs c (List.mem_cons_self c cs)).1 hc

theorem braceFree_append (a b : List Char) (ha : braceFree a) (hb : braceFree b) :
    braceFree (a ++ b) := by
  intro c hc
  rcases List.mem_append.mp hc with h | h
  · exact ha c h
  · exact hb c h

theorem braceFree_rendered (ps : List Piece) (d : TemplateData)
    (hl : litsBraceFree ps) (hv : valsBraceFree d) : braceFree (rendered ps d) := by
  induction ps with
  | nil => intro c hc; simp [rendered] at hc
  | cons p rest ih =>
    have hrest : litsBraceFree rest := fun q hq => hl q (List.mem_cons_of_mem p hq)
    have hstep : rendered (p :: rest) d = pieceOut d p ++ rendered rest d := rfl
    rw [hstep]
    refine braceFree_append _ _ ?_ (ih hrest)
    match p with
    | .lit s => exact hl (.lit s) (List.mem_cons_self _ _)
    | .tk t => exact braceFree_tokVal t d hv

/-- Helper: a text that is exactly the project_description token renders to the
project_description field verbatim, for every context, because that token is
substituted by the last of the four passes and no pass runs after it. -/
theorem fill_tokPD (d : TemplateData) :
    fill_template_content tokProjectDescription d = d.project_description := by
  have h1 : containsSub tokUsername tokProjectDescription = false := by decide
  have h2 : containsSub tokEmail tokProjectDescription = false := by decide
  have h3 : containsSub tokProjectName tokProjectDescription = false := by decide
  show replaceAll tokProjectDescription d.project_description
      (replaceAll tokProjectName d.project_name
        (replaceAll tokEmail d.email
          (replaceAll tokUsername d.username tokProjectDescription))) = _
  rw [replaceAll_not_contains tokUsername d.username _ h1,
    replaceAll_not_contains tokEmail d.email _ h2,
    replaceAll_not_contains tokProjectName d.project_name _ h3]
  exact replaceAll_self _ _ (by decide)

theorem replaceAll_single (a b : Char) :
    ∀ s : List Char, replaceAll [a] [b] s = s.map (fun c => if c = a then b else c) := by
  intro s
  induction s with
  | nil => rfl
  | cons c cs ih =>
    rw [replaceAll_cons]
    by_cases hca : c = a
    · subst hca
      rw [if_pos ⟨by simp, by simp [List.isPrefixOf]⟩]
      show [b] ++ replaceAll [c] [b] cs = _
      rw [ih]
      simp
    · rw [if_neg ?hcond]
      case hcond =>
        rintro ⟨_, hpre⟩
        simp only [List.isPrefixOf, Bool.and_eq_true, beq_iff_eq] at hpre
        exact hca hpre.1.symm
      rw [ih]
      simp [hca]

theorem create_server_zip_ok (fs : ServerFiles) (data : TemplateData)
    (b : List ZipEntry) (lic py rd : List Char)
    (h1 : fs.zero_zip = some b) (h2 : fs.license = some lic)
    (h3 : fs.pyproject = some py) (h4 : fs.readme = some rd) :
    create_server_zip fs data = .ok (b ++
      [⟨("LICENSE").toList, fill_template_content lic data⟩,
       ⟨("pyproject.toml").toList, fill_template_content py data⟩,
       ⟨("README.md").toList, fill_template_content rd data⟩]) := by
  simp only [create_server_zip, h1, h2, h3, h4]

theorem create_client_zip_ok (fs : ClientFiles) (data : TemplateData)
    (b : List ZipEntry) (lic pkg rd : List Char)
    (h1 : fs.zero_client_zip = some b) (h2 : fs.license = some lic)
    (h3 : fs.package_json = some pkg) (h4 : fs.readme = some rd) :
    create_client_zip fs data = .ok (b ++
      [⟨("LICENSE").toList, fill_template_content lic data⟩,
       ⟨("package.json").toList, fill_template_content pkg data⟩,
       ⟨("README.md").toList, fill_template_content rd data⟩]) := by
  simp only [create_client_zip, h1, h2, h3, h4]

theorem create_server_zip_ok_inv (fs : ServerFiles) (data : TemplateData)
    (out : List ZipEntry) (h : create_server_zip fs data = .ok out) :
    ∃ b lic py rd, fs.zero_zip = some b ∧ fs.license = some lic ∧
      fs.pyproject = some py ∧ fs.readme = some rd ∧
      out = b ++
        [⟨("LICENSE").toList, fill_template_content lic data⟩,
         ⟨("pyproject.toml").toList, fill_template_content py data⟩,
         ⟨("README.md").toList, fill_template_content rd data⟩] := by
  rcases hz : fs.zero_zip with _ | b
  · simp only [create_server_zip, hz] at h
    exact Except.noConfusion h
  rcases hl : fs.license with _ | lic
  · simp only [create_server_zip, hz, hl] at h
    exact Except.noConfusion h
  rcases hp : fs.pyproject with _ | py
  · simp only [create_server_zip, hz, hl, hp] at h
    exact Except.noConfusion h
  rcases hr : fs.readme with _ | rd
  · simp only [create_server_zip, hz, hl, hp, hr] at h
    exact Except.noConfusion h
  simp only [create_server_zip, hz, hl, hp, hr, Except.ok.injEq] at h
  exact ⟨b, lic, py, rd, rfl, rfl, rfl, rfl, h.symm⟩

theorem create_client_zip_ok_inv (fs : ClientFiles) (data : TemplateData)
    (out : List ZipEntry) (h : create_client_zip fs data = .ok out) :
    ∃ b lic pkg rd, fs.zero_client_zip = some b ∧ fs.license = some lic ∧
      fs.package_json = some pkg ∧ fs.readme = some rd ∧
      out = b ++
        [⟨("LICENSE").toList, fill_template_content lic data⟩,
         ⟨("package.json").toList, fill_template_content pkg data⟩,
         ⟨("README.md").toList, fill_template_content rd data⟩] := by
  rcases hz : fs.zero_client_zip with _ | b
  · simp only [create_client_zip, hz] at h
    exact Except.noConfusion h
  rcases hl : fs.license with _ | lic
  · simp only [create_client_zip, hz, hl] at h
    exact Except.noConfusion h
  rcases hp : fs.package_json with _ | pkg
  · simp only [create_client_zip, hz, hl, hp] at h
    exact Except.noConfusion h
  rcases hr : fs.readme with _ | rd
  · simp only [create_client_zip, hz, hl, hp, hr] at h
    exact Except.noConfusion h
  simp only [create_client_zip, hz, hl, hp, hr, Except.ok.injEq] at h
  exact ⟨b, lic, pkg, rd, rfl, rfl, rfl, rfl, h.symm⟩

theorem create_server_zip_error (fs : ServerFiles) (data : TemplateData)
    (h : fs.zero_zip = none ∨ fs.license = none ∨ fs.pyproject = none ∨ fs.readme = none) :
    ∃ msg, create_server_zip fs data = .error msg := by
  rcases hz : fs.zero_zip with _ | b
  · exact ⟨(("File not found: templates/server/zero.zip").toList),
      by simp only [create_server_zip, hz]⟩
  rcases hl : fs.license with _ | lic
  · exact ⟨(("File not found: templates/server/LICENSE").toList),
      by simp only [create_server_zip, hz, hl]⟩
  rcases hp : fs.pyproject with _ | py
  · exact ⟨(("File not found: templates/server/pyproject.toml").toList),
      by simp only [create_server_zip, hz, hl, hp]⟩
  rcases hr : fs.readme with _ | rd
  · exact ⟨(("File not found: templates/server/README.md").toList),
      by simp only [create_server_zip, hz, hl, hp, hr]⟩
  exfalso
  rcases h with h | h | h | h
  · rw [hz] at h; exact Option.noConfusion h
  · rw [hl] at h; exact Option.noConfusion h
  · rw [hp] at h; exact Option.noConfusion h
  · rw [hr] at h; exact Option.noConfusion h

theorem create_client_zip_error (fs : ClientFiles) (data : TemplateData)
    (h : fs.zero_client_zip = none ∨ fs.license = none ∨
      fs.package_json = none ∨ fs.readme = none) :
    ∃ msg, create_client_zip fs data = .error msg := by
  rcases hz : fs.zero_client_zip with _ | b
  · exact ⟨(("File not found: templates/client/zero-client.zip").toList),
      by simp only [create_client_zip, hz]⟩
  rcases hl : fs.license with _ | lic
  · exact ⟨(("File not found: templates/client/LICENSE").toList),
      by simp only [create_client_zip, hz, hl]⟩
  rcases hp : fs.package_json with _ | pkg
  · exact ⟨(("File not found: templates/client/package.json").toList),
      by simp only [create_client_zip, hz, hl, hp]⟩
  rcases hr : fs.readme with _ | rd
  · exact ⟨(("File not found: templates/client/README.md").toList),
      by simp only [create_client_zip, hz, hl, hp, hr]⟩
  exfalso
  rcases h with h | h | h | h
  · rw [hz] at h; exact Option.noConfusion h
  · rw [hl] at h; exact Option.noConfusion h
  · rw [hp] at h; exact Option.noConfusion h
  · rw [hr] at h; exact Option.noConfusion h

/-- C1: for every baseline archive that parses successfully, the repackaged
output archive extends the baseline: every baseline entry is present, in
particular with its decompressed content byte-identical, and no baseline
entry is removed; this holds for the server and the client variant. -/
theorem claim_C1 (fs : ServerFiles) (cfs : ClientFiles) (sdata cdata : TemplateData)
    (sb cb sout cout : List ZipEntry)
    (h1 : fs.zero_zip = some sb)
    (h2 : create_server_zip fs sdata = .ok sout)
    (h3 : cfs.zero_client_zip = some cb)
    (h4 : create_client_zip cfs cdata = .ok cout) :
    ((∃ rest, sout = sb ++ rest) ∧ ∀ e ∈ sb, e ∈ sout) ∧
    ((∃ rest, cout = cb ++ rest) ∧ ∀ e ∈ cb, e ∈ cout) := by
  constructor
  · obtain ⟨b, lic, py, rd, hz, _, _, _, hout⟩ := create_server_zip_ok_inv fs sdata sout h2
    have hb : sb = b := Option.some.inj (h1.symm.trans hz)
    subst hb
    refine ⟨⟨_, hout⟩, fun e he => ?_⟩
    rw [hout]
    exact List.mem_append_left _ he
  · obtain ⟨b, lic, pkg, rd, hz, _, _, _, hout⟩ := create_client_zip_ok_inv cfs cdata cout h4
    have hb : cb = b := Option.some.inj (h3.symm.trans hz)
    subst hb
    refine ⟨⟨_, hout⟩, fun e he => ?_⟩
    rw [hout]
    exact List.mem_append_left _ he

/-- C1 witness: the theorem evaluated on a concrete baseline and request. -/
theorem claim_C1_witness :
    ((∃ rest, wServerOut = wBaseline ++ rest) ∧ ∀ e ∈ wBaseline, e ∈ wServerOut) ∧
    ((∃ rest, wClientOut = wBaseline ++ rest) ∧ ∀ e ∈ wBaseline, e ∈ wClientOut) :=
  claim_C1 wServerFiles wClientFiles wD wD wBaseline wBaseline wServerOut wClientOut
    rfl rfl rfl rfl

/-- C2 counterexample: with a username value that is itself the literal email
token text, rendering an input consisting of exactly one username token does
not produce the username field value: the email pass re-expands it. The
occurrence is therefore not replaced with the corresponding field value. -/
theorem claim_C2_counterexample :
    cD2.username = tokEmail ∧
    fill_template_content tokUsername cD2 = ("E").toList ∧
    fill_template_content tokUsername cD2 ≠ cD2.username := by decide

/-- C2 (amended): the four replacements are applied sequentially in the order
username, email, project_name, project_description, so a field value holding
a token substituted later is re-expanded; on inputs made of brace-free
literals separated by complete tokens, with brace-free field values, every
token occurrence becomes exactly the corresponding field value; an input
containing no complete token, malformed partial tokens included, is left
unchanged. -/
theorem claim_C2 (ps : List Piece) (s : List Char) (d : TemplateData)
    (hl : litsBraceFree ps) (hv : valsBraceFree d)
    (hs : ∀ t : Tok, containsSub (tokStr t) s = false) :
    fill_template_content (assemble ps) d = rendered ps d ∧
    fill_template_content s d = s :=
  ⟨fill_assemble_rendered ps d hl hv, fill_id_of_no_token s d hs⟩

/-- C2 witness: the amended theorem evaluated on a concrete canonical template
and a concrete malformed text. -/
theorem claim_C2_witness :
    fill_template_content (assemble wPieces) wD = rendered wPieces wD ∧
    fill_template_content wMalformed wD = wMalformed :=
  claim_C2 wPieces wMalformed wD (by decide) (by decide) (by decide)

/-- C3 counterexample: a username field value holding the literal
project_name token text is expanded by the later project_name pass instead
of appearing unchanged in the output, so rendering is not a single pass and
field values are not protected from later substitutions. -/
theorem claim_C3_counterexample :
    cD3.username = tokProjectName ∧
    fill_template_content tokUsername cD3 = ("X").toList ∧
    fill_template_content tokUsername cD3 ≠ cD3.username := by decide

/-- C3 (amended): the four substitutions are applied in the fixed order
username, email, project_name, project_description, and a field value that
contains a token substituted later is re-expanded by that later pass. On
inputs made of brace-free literals separated by complete tokens, with
brace-free field values, the result is independent of the order of the four
passes; and a value substituted by the final pass (project_description) is
emitted verbatim for every context, even when it contains token text. -/
theorem claim_C3 (order : List Tok) (ps : List Piece) (d d' : TemplateData)
    (hperm : order.Perm [Tok.username, Tok.email, Tok.projectName, Tok.projectDescription])
    (hl : litsBraceFree ps) (hv : valsBraceFree d) :
    fillSeq order (assemble ps) d = fill_template_content (assemble ps) d ∧
    fill_template_content tokProjectDescription d' = d'.project_description := by
  constructor
  · rw [fillSeq_perm_rendered order hperm ps d hl hv, fill_assemble_rendered ps d hl hv]
  · exact fill_tokPD d'

/-- C3 witness: a reversed substitution order applied to a concrete canonical
template agrees with the program order, and the verbatim property holds at a
concrete context whose project_description value is itself token text (the
literal username token), which is emitted unchanged. -/
theorem claim_C3_witness :
    containsSub tokUsername cDpd.project_description = true ∧
    (fillSeq [Tok.projectDescription, Tok.projectName, Tok.email, Tok.username]
        (assemble wPieces) wD = fill_template_content (assemble wPieces) wD ∧
     fill_template_content tokProjectDescription cDpd = cDpd.project_description) :=
  ⟨by decide,
   claim_C3 [Tok.projectDescription, Tok.projectName, Tok.email, Tok.username]
     wPieces wD cDpd (by decide) (by decide) (by decide)⟩

/-- C4: the repackaged archive lists every baseline entry first, in original
order, then the rendered files in the fixed order LICENSE, pyproject.toml,
README.md (server) and LICENSE, package.json, README.md (client); a rendered
name colliding with a baseline name yields both entries: per-name counts add,
with no deduplication. -/
theorem claim_C4 (fs : ServerFiles) (cfs : ClientFiles) (sdata cdata : TemplateData)
    (sb cb : List ZipEntry) (lic py rd clic cpkg crd : List Char)
    (h1 : fs.zero_zip = some sb) (h2 : fs.license = some lic)
    (h3 : fs.pyproject = some py) (h4 : fs.readme = some rd)
    (h5 : cfs.zero_client_zip = some cb) (h6 : cfs.license = some clic)
    (h7 : cfs.package_json = some cpkg) (h8 : cfs.readme = some crd) :
    (∃ sout, create_server_zip fs sdata = .ok sout ∧
      sout.map ZipEntry.name = sb.map ZipEntry.name ++ serverRenderedNames ∧
      ∀ n, (sout.map ZipEntry.name).count n =
        (sb.map ZipEntry.name).count n + serverRenderedNames.count n) ∧
    (∃ cout, create_client_zip cfs cdata = .ok cout ∧
      cout.map ZipEntry.name = cb.map ZipEntry.name ++ clientRenderedNames ∧
      ∀ n, (cout.map ZipEntry.name).count n =
        (cb.map ZipEntry.name).count n + clientRenderedNames.count n) := by
  constructor
  · have hmap : ((sb ++
        [(⟨("LICENSE").toList, fill_template_content lic sdata⟩ : ZipEntry),
         (⟨("pyproject.toml").toList, fill_template_content py sdata⟩ : ZipEntry),
         (⟨("README.md").toList, fill_template_content rd sdata⟩ : ZipEntry)]).map ZipEntry.name) =
        sb.map ZipEntry.name ++ serverRenderedNames := by
      simp [serverRenderedNames]
    refine ⟨_, create_server_zip_ok fs sdata sb lic py rd h1 h2 h3 h4, hmap, fun n => ?_⟩
    rw [hmap]
    exact List.count_append _ _ _
  · have hmap : ((cb ++
        [(⟨("LICENSE").toList, fill_template_content clic cdata⟩ : ZipEntry),
         (⟨("package.json").toList, fill_template_content cpkg cdata⟩ : ZipEntry),
         (⟨("README.md").toList, fill_template_content crd cdata⟩ : ZipEntry)]).map ZipEntry.name) =
        cb.map ZipEntry.name ++ clientRenderedNames := by
      simp [clientRenderedNames]
    refine ⟨_, create_client_zip_ok cfs cdata cb clic cpkg crd h5 h6 h7 h8, hmap, fun n => ?_⟩
    rw [hmap]
    exact List.count_append _ _ _

/-- C4 witness: the theorem evaluated on a concrete baseline that already
contains an entry named README.md, so the no-deduplication count is visible. -/
theorem claim_C4_witness :
    (∃ sout, create_server_zip wServerFiles wD = .ok sout ∧
      sout.map ZipEntry.name = wBaseline.map ZipEntry.name ++ serverRenderedNames ∧
      ∀ n, (sout.map ZipEntry.name).count n =
        (wBaseline.map ZipEntry.name).count n + serverRenderedNames.count n) ∧
    (∃ cout, create_client_zip wClientFiles wD = .ok cout ∧
      cout.map ZipEntry.name = wBaseline.map ZipEntry.name ++ clientRenderedNames ∧
      ∀ n, (cout.map ZipEntry.name).count n =
        (wBaseline.map ZipEntry.name).count n + clientRenderedNames.count n) :=
  claim_C4 wServerFiles wClientFiles wD wD wBaseline wBaseline [] [] [] [] [] []
    rfl rfl rfl rfl rfl rfl rfl rfl

/-- C5: for every rendered template file, the repackaged archive contains an
entry carrying its name whose content equals the rendered template text,
render(templateContent, context), for both variants. -/
theorem claim_C5 (fs : ServerFiles) (cfs : ClientFiles) (sdata cdata : TemplateData)
    (sb cb : List ZipEntry) (lic py rd clic cpkg crd : List Char)
    (h1 : fs.zero_zip = some sb) (h2 : fs.license = some lic)
    (h3 : fs.pyproject = some py) (h4 : fs.readme = some rd)
    (h5 : cfs.zero_client_zip = some cb) (h6 : cfs.license = some clic)
    (h7 : cfs.package_json = some cpkg) (h8 : cfs.readme = some crd) :
    (∃ sout, create_server_zip fs sdata = .ok sout ∧
      (⟨("LICENSE").toList, fill_template_content lic sdata⟩ : ZipEntry) ∈ sout ∧
      (⟨("pyproject.toml").toList, fill_template_content py sdata⟩ : ZipEntry) ∈ sout ∧
      (⟨("README.md").toList, fill_template_content rd sdata⟩ : ZipEntry) ∈ sout) ∧
    (∃ cout, create_client_zip cfs cdata = .ok cout ∧
      (⟨("LICENSE").toList, fill_template_content clic cdata⟩ : ZipEntry) ∈ cout ∧
      (⟨("package.json").toList, fill_template_content cpkg cdata⟩ : ZipEntry) ∈ cout ∧
      (⟨("README.md").toList, fill_template_content crd cdata⟩ : ZipEntry) ∈ cout) := by
  constructor
  · refine ⟨_, create_server_zip_ok fs sdata sb lic py rd h1 h2 h3 h4, ?_, ?_, ?_⟩ <;>
      · apply List.mem_append_right
        simp
  · refine ⟨_, create_client_zip_ok cfs cdata cb clic cpkg crd h5 h6 h7 h8, ?_, ?_, ?_⟩ <;>
      · apply List.mem_append_right
        simp

/-- C5 witness: the theorem evaluated on concrete files and context. -/
theorem claim_C5_witness :
    (∃ sout, create_server_zip wServerFiles wD = .ok sout ∧
      (⟨("LICENSE").toList, fill_template_content [] wD⟩ : ZipEntry) ∈ sout ∧
      (⟨("pyproject.toml").toList, fill_template_content [] wD⟩ : ZipEntry) ∈ sout ∧
      (⟨("README.md").toList, fill_template_content [] wD⟩ : ZipEntry) ∈ sout) ∧
    (∃ cout, create_client_zip wClientFiles wD = .ok cout ∧
      (⟨("LICENSE").toList, fill_template_content [] wD⟩ : ZipEntry) ∈ cout ∧
      (⟨("package.json").toList, fill_template_content [] wD⟩ : ZipEntry) ∈ cout ∧
      (⟨("README.md").toList, fill_template_content [] wD⟩ : ZipEntry) ∈ cout) :=
  claim_C5 wServerFiles wClientFiles wD wD wBaseline wBaseline [] [] [] [] [] []
    rfl rfl rfl rfl rfl rfl rfl rfl

/-- C6 counterexample: the username field is non-empty, yet the rendered
output of the input consisting of the email token contains the exact
username token string, because the email field value re-introduces it. -/
theorem claim_C6_counterexample :
    cD6.username ≠ [] ∧
    containsSub tokUsername (fill_template_content tokEmail cD6) = true := by decide

/-- C6 (amended): on inputs made of brace-free literals separated by complete
tokens, with brace-free field values, the rendered output contains zero
occurrences of every one of the four token strings (whether or not the
corresponding field is empty); without those restrictions a token can survive
or be re-created even when its field is non-empty. -/
theorem claim_C6 (ps : List Piece) (d : TemplateData)
    (hl : litsBraceFree ps) (hv : valsBraceFree d) :
    ∀ t : Tok, containsSub (tokStr t) (fill_template_content (assemble ps) d) = false := by
  intro t
  rw [fill_assemble_rendered ps d hl hv]
  exact containsSub_false_of_braceFree (tokStr t) (tokStr_ne_nil t) (tokStr_head t) _
    (braceFree_rendered ps d hl hv)

/-- C6 witness: the amended theorem evaluated at a concrete canonical
template and context, stated for each of the four tokens. -/
theorem claim_C6_witness :
    containsSub tokUsername (fill_template_content (assemble wPieces) wD) = false ∧
    containsSub tokEmail (fill_template_content (assemble wPieces) wD) = false ∧
    containsSub tokProjectName (fill_template_content (assemble wPieces) wD) = false ∧
    containsSub tokProjectDescription (fill_template_content (assemble wPieces) wD) = false :=
  ⟨claim_C6 wPieces wD (by decide) (by decide) Tok.username,
   claim_C6 wPieces wD (by decide) (by decide) Tok.email,
   claim_C6 wPieces wD (by decide) (by decide) Tok.projectName,
   claim_C6 wPieces wD (by decide) (by decide) Tok.projectDescription⟩

/-- C7 counterexample: with brace-free field values (no placeholder-like
substrings anywhere in the context) rendering is still not idempotent: the
project_description pass splices its surroundings into a fresh username
token, which the second render then substitutes. -/
theorem claim_C7_counterexample :
    valsBraceFree cD7 ∧
    fill_template_content (fill_template_content cS7 cD7) cD7 ≠
      fill_template_content cS7 cD7 := by decide

/-- C7 (amended): re-rendering is the identity on any once-rendered output
that contains no residual occurrence of any of the four tokens; the original
claim fails because a render can re-create a token even from token-free
field values. -/
theorem claim_C7 (s : List Char) (d : TemplateData)
    (h : ∀ t : Tok, containsSub (tokStr t) (fill_template_content s d) = false) :
    fill_template_content (fill_template_content s d) d = fill_template_content s d :=
  fill_id_of_no_token _ d h

/-- C7 witness: idempotence on a concrete fully rendered output. -/
theorem claim_C7_witness :
    fill_template_content (fill_template_content wIdem wD) wD =
      fill_template_content wIdem wD :=
  claim_C7 wIdem wD (by decide)

/-- C8 counterexample: a tab is whitespace, yet the derived filename keeps it
unchanged: only the space character is replaced by an underscore, so
"whitespace replaced by underscores" fails on tab. -/
theorem claim_C8_counterexample :
    ('\t').isWhitespace = true ∧
    server_filename (['a', '\t', 'b']) = ('a' :: '\t' :: 'b' :: (".zip").toList) ∧
    server_filename (['a', '\t', 'b']) ≠ ('a' :: '_' :: 'b' :: (".zip").toList) := by decide

/-- C8 (amended): for ASCII project names, the derived download filename is
the project_name with each space character (U+0020, not general whitespace)
replaced by an underscore and letters lower-cased, suffixed ".zip" for the
server variant and "-client.zip" for the client variant; in particular
"Cool Project" yields cool_project.zip and cool_project-client.zip, and
"My App" yields my_app.zip. The ASCII hypothesis marks the range on which
the character-wise lower-casing model coincides with Rust's to_lowercase. -/
theorem claim_C8 (pn : List Char) (_hascii : ∀ c ∈ pn, c.toNat < 128) :
    server_filename pn =
      ((pn.map fun c => if c = ' ' then '_' else c).map Char.toLower) ++ (".zip").toList ∧
    client_filename pn =
      ((pn.map fun c => if c = ' ' then '_' else c).map Char.toLower) ++ ("-client.zip").toList ∧
    server_filename (("Cool Project").toList) = ("cool_project.zip").toList ∧
    client_filename (("Cool Project").toList) = ("cool_project-client.zip").toList ∧
    server_filename (("My App").toList) = ("my_app.zip").toList := by
  have hbase : derive_filename_base pn =
      (pn.map fun c => if c = ' ' then '_' else c).map Char.toLower := by
    unfold derive_filename_base
    rw [replaceAll_single ' ' '_' pn]
  refine ⟨?_, ?_, by decide, by decide, by decide⟩
  · show derive_filename_base pn ++ (".zip").toList = _
    rw [hbase]
  · show derive_filename_base pn ++ ("-client.zip").toList = _
    rw [hbase]

/-- C8 witness: the amended theorem evaluated at the ASCII project name
"My App". -/
theorem claim_C8_witness :
    server_filename (("My App").toList) =
      (((("My App").toList).map fun c => if c = ' ' then '_' else c).map Char.toLower) ++
        (".zip").toList ∧
    client_filename (("My App").toList) =
      (((("My App").toList).map fun c => if c = ' ' then '_' else c).map Char.toLower) ++
        ("-client.zip").toList ∧
    server_filename (("Cool Project").toList) = ("cool_project.zip").toList ∧
    client_filename (("Cool Project").toList) = ("cool_project-client.zip").toList ∧
    server_filename (("My App").toList) = ("my_app.zip").toList :=
  claim_C8 (("My App").toList) (by decide)

/-- C9: when the variant's baseline archive or any of its three template
files is missing from disk, zip creation fails with an error and yields no
archive (no partial output), and the endpoint answers HTTP 500 with a JSON
body whose key is "error" instead of archive bytes; both variants. -/
theorem claim_C9 (fs : ServerFiles) (cfs : ClientFiles) (u : UserInfo) (gid ts : List Char)
    (hs : fs.zero_zip = none ∨ fs.license = none ∨ fs.pyproject = none ∨ fs.readme = none)
    (hc : cfs.zero_client_zip = none ∨ cfs.license = none ∨
      cfs.package_json = none ∨ cfs.readme = none) :
    ((∃ msg, create_server_zip fs (templateDataOf u gid ts) = .error msg) ∧
     (generate_server_zip fs u gid ts).status = 500 ∧
     (∃ m, (generate_server_zip fs u gid ts).body = .errorJson m) ∧
     ∀ entries, (generate_server_zip fs u gid ts).body ≠ .archive entries) ∧
    ((∃ msg, create_client_zip cfs (templateDataOf u gid ts) = .error msg) ∧
     (generate_client_zip cfs u gid ts).status = 500 ∧
     (∃ m, (generate_client_zip cfs u gid ts).body = .errorJson m) ∧
     ∀ entries, (generate_client_zip cfs u gid ts).body ≠ .archive entries) := by
  constructor
  · obtain ⟨msg, hmsg⟩ := create_server_zip_error fs (templateDataOf u gid ts) hs
    have hresp : generate_server_zip fs u gid ts =
        ⟨500, none,
         .errorJson ((("Failed to create server zip file: ").toList) ++ msg)⟩ := by
      simp only [generate_server_zip, hmsg]
    refine ⟨⟨msg, hmsg⟩, ?_, ?_, fun entries => ?_⟩
    · rw [hresp]
    · rw [hresp]
      exact ⟨_, rfl⟩
    · rw [hresp]
      exact fun hx => ResponseBody.noConfusion hx
  · obtain ⟨msg, hmsg⟩ := create_client_zip_error cfs (templateDataOf u gid ts) hc
    have hresp : generate_client_zip cfs u gid ts =
        ⟨500, none,
         .errorJson ((("Failed to create client zip file: ").toList) ++ msg)⟩ := by
      simp only [generate_client_zip, hmsg]
    refine ⟨⟨msg, hmsg⟩, ?_, ?_, fun entries => ?_⟩
    · rw [hresp]
    · rw [hresp]
      exact ⟨_, rfl⟩
    · rw [hresp]
      exact fun hx => ResponseBody.noConfusion hx

/-- C9 witness: the theorem evaluated with every file missing. -/
theorem claim_C9_witness :
    ((∃ msg, create_server_zip wServerFilesMissing
        (templateDataOf wUser [] []) = .error msg) ∧
     (generate_server_zip wServerFilesMissing wUser [] []).status = 500 ∧
     (∃ m, (generate_server_zip wServerFilesMissing wUser [] []).body = .errorJson m) ∧
     ∀ entries,
       (generate_server_zip wServerFilesMissing wUser [] []).body ≠ .archive entries) ∧
    ((∃ msg, create_client_zip wClientFilesMissing
        (templateDataOf wUser [] []) = .error msg) ∧
     (generate_client_zip wClientFilesMissing wUser [] []).status = 500 ∧
     (∃ m, (generate_client_zip wClientFilesMissing wUser [] []).body = .errorJson m) ∧
     ∀ entries,
       (generate_client_zip wClientFilesMissing wUser [] []).body ≠ .archive entries) :=
  claim_C9 wServerFilesMissing wClientFilesMissing wUser [] [] (Or.inl rfl) (Or.inl rfl)

/-- C10: an empty project_name is not rejected: with all files present the
server endpoint answers 200 with the derived filename ".zip", the client
endpoint answers 200 with "-client.zip", and both bodies carry an archive. -/
theorem claim_C10 (fs : ServerFiles) (cfs : ClientFiles) (u : UserInfo) (gid ts : List Char)
    (sb cb : List ZipEntry) (lic py rd clic cpkg crd : List Char)
    (hpn : u.project_name = [])
    (h1 : fs.zero_zip = some sb) (h2 : fs.license = some lic)
    (h3 : fs.pyproject = some py) (h4 : fs.readme = some rd)
    (h5 : cfs.zero_client_zip = some cb) (h6 : cfs.license = some clic)
    (h7 : cfs.package_json = some cpkg) (h8 : cfs.readme = some crd) :
    ((generate_server_zip fs u gid ts).status = 200 ∧
     (generate_server_zip fs u gid ts).filename = some ((".zip").toList) ∧
     ∃ entries, (generate_server_zip fs u gid ts).body = .archive entries) ∧
    ((generate_client_zip cfs u gid ts).status = 200 ∧
     (generate_client_zip cfs u gid ts).filename = some (("-client.zip").toList) ∧
     ∃ entries, (generate_client_zip cfs u gid ts).body = .archive entries) := by
  have hfnS : server_filename (templateDataOf u gid ts).project_name = (".zip").toList := by
    rw [show (templateDataOf u gid ts).project_name = u.project_name from rfl, hpn]
    decide
  have hfnC : client_filename (templateDataOf u gid ts).project_name =
      ("-client.zip").toList := by
    rw [show (templateDataOf u gid ts).project_name = u.project_name from rfl, hpn]
    decide
  constructor
  · have hok := create_server_zip_ok fs (templateDataOf u gid ts) sb lic py rd h1 h2 h3 h4
    have hresp : generate_server_zip fs u gid ts =
        ⟨200, some (server_filename (templateDataOf u gid ts).project_name),
         .archive (sb ++
           [⟨("LICENSE").toList, fill_template_content lic (templateDataOf u gid ts)⟩,
            ⟨("pyproject.toml").toList, fill_template_content py (templateDataOf u gid ts)⟩,
            ⟨("README.md").toList, fill_template_content rd (templateDataOf u gid ts)⟩])⟩ := by
      simp only [generate_server_zip, hok]
    refine ⟨?_, ?_, ?_⟩
    · rw [hresp]
    · rw [hresp]
      simp only [hfnS]
    · rw [hresp]
      exact ⟨_, rfl⟩
  · have hok := create_client_zip_ok cfs (templateDataOf u gid ts) cb clic cpkg crd h5 h6 h7 h8
    have hresp : generate_client_zip cfs u gid ts =
        ⟨200, some (client_filename (templateDataOf u gid ts).project_name),
         .archive (cb ++
           [⟨("LICENSE").toList, fill_template_content clic (templateDataOf u gid ts)⟩,
            ⟨("package.json").toList, fill_template_content cpkg (templateDataOf u gid ts)⟩,
            ⟨("README.md").toList, fill_template_content crd (templateDataOf u gid ts)⟩])⟩ := by
      simp only [generate_client_zip, hok]
    refine ⟨?_, ?_, ?_⟩
    · rw [hresp]
    · rw [hresp]
      simp only [hfnC]
    · rw [hresp]
      exact ⟨_, rfl⟩

/-- C10 witness: the theorem evaluated on a request whose project_name is the
empty string, with all files present. -/
theorem claim_C10_witness :
    ((generate_server_zip wServerFiles wUserEmpty [] []).status = 200 ∧
     (generate_server_zip wServerFiles wUserEmpty [] []).filename = some ((".zip").toList) ∧
     ∃ entries, (generate_server_zip wServerFiles wUserEmpty [] []).body = .archive entries) ∧
    ((generate_client_zip wClientFiles wUserEmpty [] []).status = 200 ∧
     (generate_client_zip wClientFiles wUserEmpty [] []).filename =
       some (("-client.zip").toList) ∧
     ∃ entries, (generate_client_zip wClientFiles wUserEmpty [] []).body = .archive entries) :=
  claim_C10 wServerFiles wClientFiles wUserEmpty [] [] wBaseline wBaseline [] [] [] [] [] []
    rfl rfl rfl rfl rfl rfl rfl rfl rfl
